import Mathlib

/-!
Verification of the planning-analyzer core: the hierarchy-detection parser
(`PlanningParser._detect_structure`, plus the surrounding `parse_excel`
pipeline) and the validation rule engine (`PlanningValidator`).

The Python code is embedded shallowly: pandas rows become Lean structures
with `Option` fields (`none` models `NaN`/`None`/absent), dates become
integer day numbers, and the one runtime crash reachable in the detector
(`task_str[0]` on an empty string, an `IndexError`) is modelled by an
`Option`/`Except` result.  Python string primitives (`strip`, `isupper`,
`isdigit`, `startswith`) are modelled over the character list of the
string so that every definition evaluates inside the kernel.
-/

/-- One mapped spreadsheet row as seen by `PlanningParser._detect_structure`
and `_clean_data`: the `task` text cell, the raw date cells and numeric
cells, plus the `level`/`bloc`/`phase` columns the detector writes. -/
structure Row where
  task : Option String := none
  start : Option Int := none
  «end» : Option Int := none
  duration : Option Int := none
  progress : Option Int := none
  value : Option Int := none
  level : String := ""
  bloc : Option String := none
  phase : Option String := none
deriving Repr, DecidableEq

/-- Python's `str.strip()` on the character list: drop whitespace from both
ends. -/
def stripChars (l : List Char) : List Char :=
  ((l.dropWhile Char.isWhitespace).reverse.dropWhile Char.isWhitespace).reverse

/-- Python's `str.strip()`. -/
def pyStrip (s : String) : String := ⟨stripChars s.data⟩

/-- Python's `str.isupper()`: at least one cased character and no lowercase
cased character (ASCII letters model the cased characters). -/
def pyIsUpper (s : String) : Bool :=
  s.data.any (fun c => c.isAlpha) && s.data.all (fun c => !c.isLower)

/-- One iteration of the `_detect_structure` loop body on row `r` with the
running state `(current_bloc, current_phase) = (cb, cp)`.  Returns the
updated row and the new state, or `none` for the `IndexError` raised by
`task_str[0]` when the stripped text is empty. -/
def classify (cb cp : Option String) (r : Row) : Option (Row × Option String × Option String) :=
  match r.task with
  | none => some ({ r with level := "tache", bloc := none, phase := none }, cb, cp)
  | some t =>
    let s : String := pyStrip t
    if pyIsUpper s && r.start.isNone then
      some ({ r with level := "bloc", bloc := some s, phase := none }, some s, none)
    else
      match s.data with
      | [] => none
      | c :: _ =>
        if (c.isDigit || c == '-') && r.start.isNone then
          some ({ r with level := "phase", phase := some s, bloc := cb }, cb, some s)
        else
          some ({ r with level := "tache", bloc := cb, phase := cp }, cb, cp)

/-- The `_detect_structure` loop over the remaining rows, threading the
`(current_bloc, current_phase)` state. -/
def detectGo (cb cp : Option String) : List Row → Option (List Row)
  | [] => some []
  | r :: rs =>
    match classify cb cp r with
    | none => none
    | some (r', cb', cp') =>
      match detectGo cb' cp' rs with
      | none => none
      | some out => some (r' :: out)

/-- `PlanningParser._detect_structure`: every row first gets
`level = "tache"`, `bloc = none`, `phase = none`, then the forward pass
reclassifies each row with text; `none` models the run aborting with an
`IndexError` on empty text. -/
def detectStructure (rows : List Row) : Option (List Row) :=
  detectGo none none rows

/-- Spec-side notion, written from the spec's words: the `bloc` label of the
nearest preceding row classified as Block in `pre` (document order), falling
back to `cb` when no Block row precedes. -/
def nearestBloc (cb : Option String) (pre : List Row) : Option String :=
  match pre.reverse.find? (fun r => r.level == "bloc") with
  | some r => r.bloc
  | none => cb

/-- Spec-side notion, written from the spec's words: the `phase` label of the
nearest preceding row classified as Phase since the last Block row in `pre`,
falling back to `cp` when no Block row precedes at all. -/
def nearestPhase (cp : Option String) (pre : List Row) : Option String :=
  match (pre.reverse.takeWhile (fun r => r.level != "bloc")).find? (fun r => r.level == "phase") with
  | some r => r.phase
  | none => if pre.all (fun r => r.level != "bloc") then cp else none

/-- What the detector guarantees for one output row, given the nearest-block
reference `nb` and nearest-phase reference `np` of the row's prefix. -/
def rowSpec (nb np : Option String) (r : Row) : Prop :=
  match r.task with
  | none => r.level = "tache" ∧ r.bloc = none ∧ r.phase = none
  | some t =>
    let s : String := pyStrip t
    if pyIsUpper s && r.start.isNone then
      r.level = "bloc" ∧ r.bloc = some s ∧ r.phase = none
    else
      match s.data with
      | [] => False
      | c :: _ =>
        if (c.isDigit || c == '-') && r.start.isNone then
          r.level = "phase" ∧ r.bloc = nb ∧ r.phase = some s
        else
          r.level = "tache" ∧ r.bloc = nb ∧ r.phase = np

def c1wRows : List Row := [{ task := some "A" }, { task := some "1" }, { task := some "x" }]

def c1wOut : List Row :=
  [{ task := some "A", level := "bloc", bloc := some "A" },
   { task := some "1", level := "phase", bloc := some "A", phase := some "1" },
   { task := some "x", level := "tache", bloc := some "A", phase := some "1" }]

def c3wRows : List Row := [{ task := some "A" }, { task := some "1" }]

def c3wOut : List Row :=
  [{ task := some "A", level := "bloc", bloc := some "A" },
   { task := some "1", level := "phase", bloc := some "A", phase := some "1" }]

def c8wRows : List Row := [{ task := some "B" }, { task := some "t", start := some 3 }]

def c8wOut : List Row :=
  [{ task := some "B", level := "bloc", bloc := some "B" },
   { task := some "t", start := some 3, level := "tache", bloc := some "B" }]

def c10wRows : List Row := [{ task := some "T", level := "garbage", bloc := some "stale", phase := some "stale" }]

/-- Index/row pairs in document order, modelling `DataFrame.iterrows` where
the index of a freshly read frame is the 0-based position; pandas filters
keep the original index. -/
def enumFrom {α : Type} : Nat → List α → List (Nat × α)
  | _, [] => []
  | n, x :: xs => (n, x) :: enumFrom (n + 1) xs

/-- One normalized schedule row as seen by `PlanningValidator` after
`_clean_data` renamed `task`/`start`/`end` to `task_name`/`start_date`/
`end_date`. -/
structure VRow where
  level : String := ""
  task_name : Option String := none
  bloc : Option String := none
  phase : Option String := none
  start_date : Option Int := none
  end_date : Option Int := none
  duration : Option Int := none
  progress : Option Int := none
  value : Option Int := none
deriving Repr, DecidableEq

/-- A validation finding: `{'severity': ..., 'message': ..., 'row': ...}`. -/
structure Alert where
  severity : String
  message : String
  row : Option Nat
deriving Repr, DecidableEq

/-- Python `f"{row.get('task_name')}"`: a missing value prints as `None`. -/
def fmtName (o : Option String) : String :=
  match o with
  | some s => s
  | none => "None"

/-- Python `row.get('task_name', 'N/A')`. -/
def fmtNameNA (o : Option String) : String := o.getD "N/A"

/-- Python `f"{row['task_name']}"` where a `NaN` cell prints as `nan`. -/
def fmtNameNan (o : Option String) : String := o.getD "nan"

/-- `df.iterrows()` over the whole frame. -/
def withIdx (df : List VRow) : List (Nat × VRow) := enumFrom 0 df

/-- `PlanningValidator._check_missing_dates`. -/
def checkMissingDates (df : List VRow) : List Alert :=
  ((withIdx df).filter (fun p => p.2.level == "tache")).flatMap (fun p =>
    (if p.2.start_date.isNone then
      [{ severity := "error", message := "Date début manquante: " ++ fmtNameNA p.2.task_name,
         row := some p.1 }]
     else []) ++
    (if p.2.end_date.isNone then
      [{ severity := "error", message := "Date fin manquante: " ++ fmtNameNA p.2.task_name,
         row := some p.1 }]
     else []))

/-- The duration-coherence warning message, with the computed and the stated
duration. -/
def durMsg (r : VRow) : String :=
  "Incohérence durée: " ++ fmtName r.task_name ++ " (calculé: " ++
    toString (r.end_date.getD 0 - r.start_date.getD 0) ++ "j, indiqué: " ++
    toString (r.duration.getD 0) ++ "j)"

/-- The duration-coherence warning for row index `i`. -/
def durAlert (i : Nat) (r : VRow) : Alert :=
  { severity := "warning", message := durMsg r, row := some i }

/-- `PlanningValidator._check_duration_coherence`: on task rows with start,
end and duration all present, warn when `abs((end-start).days - duration) > 1`. -/
def checkDurationCoherence (df : List VRow) : List Alert :=
  ((withIdx df).filter (fun p =>
      p.2.level == "tache" && p.2.start_date.isSome && p.2.end_date.isSome
        && p.2.duration.isSome)).flatMap
    (fun p =>
      if 1 < ((p.2.end_date.getD 0 - p.2.start_date.getD 0) - p.2.duration.getD 0).natAbs then
        [durAlert p.1 p.2]
      else [])

/-- `PlanningValidator._check_progress_range`. -/
def checkProgressRange (df : List VRow) : List Alert :=
  ((withIdx df).filter (fun p => p.2.level == "tache" && p.2.progress.isSome)).flatMap (fun p =>
    if p.2.progress.getD 0 < 0 ∨ p.2.progress.getD 0 > 100 then
      [{ severity := "error",
         message := "Avancement invalide (" ++ toString (p.2.progress.getD 0) ++ "%): " ++
           fmtName p.2.task_name,
         row := some p.1 }]
    else [])

/-- `PlanningValidator._check_date_order`. -/
def checkDateOrder (df : List VRow) : List Alert :=
  ((withIdx df).filter (fun p =>
      p.2.level == "tache" && p.2.start_date.isSome && p.2.end_date.isSome)).flatMap
    (fun p =>
      if p.2.start_date.getD 0 ≥ p.2.end_date.getD 0 then
        [{ severity := "error", message := "Date fin avant date début: " ++ fmtName p.2.task_name,
           row := some p.1 }]
      else [])

/-- `PlanningValidator._check_orphan_tasks`. -/
def checkOrphanTasks (df : List VRow) : List Alert :=
  ((withIdx df).filter (fun p => p.2.level == "tache")).flatMap (fun p =>
    (if p.2.bloc.isNone then
      [{ severity := "warning", message := "Tâche sans BLOC: " ++ fmtName p.2.task_name,
         row := some p.1 }]
     else []) ++
    (if p.2.phase.isNone then
      [{ severity := "info", message := "Tâche sans Phase: " ++ fmtName p.2.task_name,
         row := some p.1 }]
     else []))

/-- Sort key for `sort_values('start_date')` on the filtered pool, where the
date is always present. -/
def startKey (p : Nat × VRow) : Int := p.2.start_date.getD 0

/-- The order used to sort a phase group by start date. -/
def startLE (a b : Nat × VRow) : Prop := startKey a ≤ startKey b

instance : DecidableRel startLE := fun a b => Int.decLe (startKey a) (startKey b)

instance : IsTotal (Nat × VRow) startLE := ⟨fun a b => Int.le_total (startKey a) (startKey b)⟩

instance : IsTrans (Nat × VRow) startLE := ⟨fun _ _ _ hab hbc => le_trans hab hbc⟩

/-- `phase_tasks.sort_values('start_date')`. -/
def sortByStart (l : List (Nat × VRow)) : List (Nat × VRow) := l.insertionSort startLE

/-- The rows `_check_overlapping_tasks` works on: task rows with phase and
both dates present, with their original index. -/
def overlapPool (df : List VRow) : List (Nat × VRow) :=
  (withIdx df).filter (fun p =>
    p.2.level == "tache" && p.2.phase.isSome && p.2.start_date.isSome && p.2.end_date.isSome)

/-- `Series.unique()`: values in order of first appearance. -/
def uniqueAux (seen : List String) : List String → List String
  | [] => []
  | x :: xs => if x ∈ seen then uniqueAux seen xs else x :: uniqueAux (x :: seen) xs

/-- `tasks['phase'].unique()`. -/
def uniqueList (l : List String) : List String := uniqueAux [] l

/-- The overlap info alert for an adjacent pair, carrying the earlier row's
index (`current.name`). -/
def ovAlert (c n : Nat × VRow) : Alert :=
  { severity := "info",
    message := "Chevauchement: " ++ fmtNameNan c.2.task_name ++ " et " ++ fmtNameNan n.2.task_name,
    row := some c.1 }

/-- The `for i in range(len(phase_tasks) - 1)` loop: compare each adjacent
pair of the sorted group. -/
def adjacentOverlaps : List (Nat × VRow) → List Alert
  | c :: n :: rest =>
    (if c.2.end_date.getD 0 > n.2.start_date.getD 0 then [ovAlert c n] else []) ++
      adjacentOverlaps (n :: rest)
  | _ => []

/-- `PlanningValidator._check_overlapping_tasks`. -/
def checkOverlappingTasks (df : List VRow) : List Alert :=
  (uniqueList ((overlapPool df).map (fun p => p.2.phase.getD ""))).flatMap (fun ph =>
    adjacentOverlaps (sortByStart ((overlapPool df).filter (fun p => p.2.phase == some ph))))

/-- `PlanningValidator._check_missing_values`. -/
def checkMissingValues (df : List VRow) : List Alert :=
  let tasks := df.filter (fun r => r.level == "tache")
  let missing := (tasks.filter (fun r => r.value.isNone)).length
  if 0 < missing then
    [{ severity := "info", message := toString missing ++ " tâches sans valeur financière",
       row := none }]
  else []

/-- `PlanningValidator._check_future_progress`; `today` is the day number
read from the wall clock by `datetime.now()`. -/
def checkFutureProgress (today : Int) (df : List VRow) : List Alert :=
  ((withIdx df).filter (fun p =>
      p.2.level == "tache" && p.2.start_date.isSome && p.2.progress.isSome)).flatMap
    (fun p =>
      if p.2.start_date.getD 0 > today ∧ p.2.progress.getD 0 > 0 then
        [{ severity := "warning",
           message := "Tâche future avec avancement: " ++ fmtName p.2.task_name ++ " (" ++
             toString (p.2.progress.getD 0) ++ "%)",
           row := some p.1 }]
      else [])

/-- `PlanningValidator.__init__`: the fixed ordered rule list. -/
def rules (today : Int) : List (List VRow → List Alert) :=
  [checkMissingDates, checkDurationCoherence, checkProgressRange, checkDateOrder,
   checkOrphanTasks, checkOverlappingTasks, checkMissingValues, checkFutureProgress today]

/-- `PlanningValidator.validate`: run every rule and extend the alert list. -/
def validate (today : Int) (df : List VRow) : List Alert :=
  (rules today).foldl (fun acc rule => acc ++ rule df) []

/-- Python dict assignment `d[k] = v` on an insertion-ordered dict. -/
def dictSet : List (String × Nat) → String → Nat → List (String × Nat)
  | [], k, v => [(k, v)]
  | (k', v') :: rest, k, v =>
    if k' = k then (k, v) :: rest else (k', v') :: dictSet rest k v

/-- Python `d.get(k, dflt)` on an insertion-ordered dict. -/
def dictGet : List (String × Nat) → String → Nat → Nat
  | [], _, d => d
  | (k', v') :: rest, k, d => if k' = k then v' else dictGet rest k d

/-- One iteration of the `get_summary` loop:
`summary[severity] = summary.get(severity, 0) + 1`. -/
def sumStep (s : List (String × Nat)) (a : Alert) : List (String × Nat) :=
  dictSet s a.severity (dictGet s a.severity 0 + 1)

/-- `PlanningValidator.get_summary`. -/
def getSummary (alerts : List Alert) : List (String × Nat) :=
  alerts.foldl sumStep [("error", 0), ("warning", 0), ("info", 0), ("total", alerts.length)]

/-- A pandas `DataFrame` abstraction for the parse pipeline: the set of
present column names and the row data.  A column that is absent reads as
`None` per row but raises a `KeyError` when indexed as a whole column. -/
structure PDF where
  cols : List String
  rows : List Row
deriving Repr, DecidableEq

/-- The row values `_detect_structure` actually reads: a cell of an absent
column reads as `None` (`'task' in row` is false, `row.get('start')` is
`None`). -/
def effRows (df : PDF) : List Row :=
  let r1 := if "task" ∈ df.cols then df.rows else df.rows.map (fun r => { r with task := none })
  if "start" ∈ df.cols then r1 else r1.map (fun r => { r with start := none })

/-- `PlanningParser._detect_structure` at the frame level: classify the rows
and add the `level`/`bloc`/`phase` columns; an `IndexError` surfaces as an
`Except.error`. -/
def detectStructurePDF (df : PDF) : Except String PDF :=
  match detectGo none none (effRows df) with
  | none => Except.error "string index out of range"
  | some out =>
    Except.ok { cols := df.cols ++ (["level", "bloc", "phase"].filter (fun c => !df.cols.contains c)),
                rows := out }

/-- The `_clean_data` rename `task → task_name`, `start → start_date`,
`end → end_date`. -/
def renameRow (r : Row) : VRow :=
  { level := r.level, task_name := r.task, bloc := r.bloc, phase := r.phase,
    start_date := r.start, end_date := r.«end», duration := r.duration,
    progress := r.progress, value := r.value }

/-- The `_clean_data` duration back-fill on one row:
`df.loc[mask, 'duration'] = (end - start).dt.days` where `mask` is the rows
with a null duration. -/
def backfillDuration (r : Row) : Row :=
  if r.duration.isNone then
    { r with duration :=
        match r.«end», r.start with
        | some e, some s => some (e - s)
        | _, _ => none }
  else r

/-- `PlanningParser._clean_data`: when both date columns are present the
back-fill reads the `duration` column unconditionally, raising a `KeyError`
when it is absent; date and numeric coercions are identity on this typed
model. -/
def cleanDataPDF (df : PDF) : Except String (List VRow) :=
  if "start" ∈ df.cols ∧ "end" ∈ df.cols then
    if "duration" ∈ df.cols then
      Except.ok ((df.rows.map backfillDuration).map renameRow)
    else Except.error "KeyError: duration"
  else Except.ok (df.rows.map renameRow)

/-- Does an `Except` result hold an error? -/
def isError {ε α : Type} : Except ε α → Bool
  | Except.error _ => true
  | Except.ok _ => false

/-- `PlanningParser.parse_excel` from the column-mapped frame on: structure
detection then cleaning, any exception re-raised as `Erreur parsing: ...`
with no partial dataset. -/
def parseFromMapped (df : PDF) : Except String (List VRow) :=
  match detectStructurePDF df with
  | Except.error e => Except.error ("Erreur parsing: " ++ e)
  | Except.ok s =>
    match cleanDataPDF s with
    | Except.error e => Except.error ("Erreur parsing: " ++ e)
    | Except.ok v => Except.ok v

def c4wOk : VRow :=
  { level := "tache", task_name := some "T", start_date := some 0, end_date := some 5,
    duration := some 4 }

def c4wBad : VRow :=
  { level := "tache", task_name := some "T", start_date := some 0, end_date := some 5,
    duration := some 3 }

def c5df : List VRow :=
  [{ level := "tache", task_name := some "T", bloc := some "B", phase := some "P",
     start_date := some 100, end_date := some 105, duration := some 5, progress := some 50,
     value := some 1 }]

def c6dfA : VRow :=
  { level := "tache", task_name := some "TaskA", phase := some "P", start_date := some 1,
    end_date := some 10 }

def c6dfB : VRow :=
  { level := "tache", task_name := some "TaskB", phase := some "P", start_date := some 5,
    end_date := some 15 }

def c7baddf : List Alert := [{ severity := "total", message := "m", row := none }]

def c7example : List Alert :=
  [{ severity := "error", message := "a", row := none },
   { severity := "error", message := "b", row := none },
   { severity := "warning", message := "c", row := none },
   { severity := "info", message := "d", row := none },
   { severity := "info", message := "e", row := none },
   { severity := "info", message := "f", row := none }]

def c9wdf : PDF :=
  { cols := ["task", "start", "end"],
    rows := [{ task := some "Pose", start := some 1, «end» := some 4 }] }

/-- If every element of a list satisfies `p`, `takeWhile p` keeps the whole
list. -/
theorem takeWhileOfAll {α : Type} (p : α → Bool) : ∀ (l : List α), l.all p = true → l.takeWhile p = l := by
  intro l h
  induction l with
  | nil => rfl
  | cons a l ih =>
    simp only [List.all_cons, Bool.and_eq_true] at h
    simp [List.takeWhile_cons, h.1, ih h.2]

/-- `takeWhile` over an append, phrased through `all` on the first part. -/
theorem takeWhileAppendAll {α : Type} (p : α → Bool) (l₁ l₂ : List α) :
    (l₁ ++ l₂).takeWhile p = if l₁.all p then l₁ ++ l₂.takeWhile p else l₁.takeWhile p := by
  induction l₁ with
  | nil => simp
  | cons a l ih =>
    by_cases h : p a
    · simp only [List.cons_append, List.takeWhile_cons, h, if_true, ih, List.all_cons]
      by_cases h2 : l.all p <;> simp [h, h2]
    · simp [List.takeWhile_cons, h, List.all_cons]

/-- Prepending one already-classified row to the prefix shifts the
nearest-block reference exactly the way `_detect_structure` updates
`current_bloc`. -/
theorem nearestBloc_cons (cb : Option String) (r : Row) (ctx : List Row) :
    nearestBloc cb (r :: ctx) = nearestBloc (if r.level == "bloc" then r.bloc else cb) ctx := by
  unfold nearestBloc
  rw [List.reverse_cons, List.find?_append]
  cases hf : ctx.reverse.find? (fun x => x.level == "bloc") with
  | some q => simp [Option.or]
  | none =>
    by_cases hr : r.level == "bloc" <;> simp [Option.or, List.find?_cons, hr]

/-- Prepending one already-classified row to the prefix shifts the
nearest-phase reference exactly the way `_detect_structure` updates
`current_phase`. -/
theorem nearestPhase_cons (cp : Option String) (r : Row) (ctx : List Row) :
    nearestPhase cp (r :: ctx) =
      nearestPhase (if r.level == "bloc" then none else if r.level == "phase" then r.phase else cp) ctx := by
  unfold nearestPhase
  rw [List.reverse_cons, takeWhileAppendAll]
  by_cases hall : ctx.reverse.all (fun x => x.level != "bloc")
  · rw [if_pos hall, List.find?_append, takeWhileOfAll _ _ hall]
    have hctx : ctx.all (fun x => x.level != "bloc") = true := by
      rw [← List.all_reverse]; exact hall
    cases hf : ctx.reverse.find? (fun x => x.level == "phase") with
    | some q => simp [Option.or]
    | none =>
      by_cases hb : r.level == "bloc"
      · have hnb : (fun x : Row => x.level != "bloc") r = false := by
          simp only [bne]; rw [hb]; rfl
        simp [Option.or, List.takeWhile_cons, hnb, hb, List.all_cons, hctx]
      · have hb' : (r.level == "bloc") = false := by simp [hb]
        have hnb : (fun x : Row => x.level != "bloc") r = true := by
          simp [bne, hb']
        by_cases hp : r.level == "phase"
        · simp [Option.or, List.takeWhile_cons, hnb, hb, hp, List.find?_cons, List.all_cons, hctx]
        · simp [Option.or, List.takeWhile_cons, hnb, hb, hp, List.find?_cons, List.all_cons, hctx]
  · rw [if_neg hall]
    have hctx : ctx.all (fun x => x.level != "bloc") = false := by
      rw [← List.all_reverse]; exact Bool.not_eq_true _ ▸ (by simpa using hall)
    cases hf : (ctx.reverse.takeWhile (fun x => x.level != "bloc")).find? (fun x => x.level == "phase") with
    | some q => simp
    | none =>
      simp [List.all_cons, hctx]

/-- The state returned by one `classify` step is determined by the classified
row itself: a Block row installs its own label and clears the phase, a Phase
row installs its own phase label, anything else keeps the state. -/
theorem classify_state (cb cp : Option String) (r r' : Row) (cb' cp' : Option String)
    (h : classify cb cp r = some (r', cb', cp')) :
    cb' = (if r'.level == "bloc" then r'.bloc else cb) ∧
    cp' = (if r'.level == "bloc" then none else if r'.level == "phase" then r'.phase else cp) := by
  cases ht : r.task with
  | none =>
    simp only [classify, ht, Option.some.injEq, Prod.mk.injEq] at h
    obtain ⟨h1, h2, h3⟩ := h
    subst h1; subst h2; subst h3
    simp
  | some t =>
    simp only [classify, ht] at h
    split at h
    · simp only [Option.some.injEq, Prod.mk.injEq] at h
      obtain ⟨h1, h2, h3⟩ := h
      subst h1; subst h2; subst h3
      simp
    · split at h
      · exact absurd h (by simp)
      · split at h <;>
        · simp only [Option.some.injEq, Prod.mk.injEq] at h
          obtain ⟨h1, h2, h3⟩ := h
          subst h1; subst h2; subst h3
          simp

/-- A successfully classified row satisfies `rowSpec` relative to the state
the step was run in. -/
theorem classify_rowSpec (cb cp : Option String) (r r' : Row) (cb' cp' : Option String)
    (h : classify cb cp r = some (r', cb', cp')) :
    rowSpec cb cp r' := by
  cases ht : r.task with
  | none =>
    simp only [classify, ht, Option.some.injEq, Prod.mk.injEq] at h
    obtain ⟨h1, _, _⟩ := h
    subst h1
    simp [rowSpec, ht]
  | some t =>
    simp only [classify, ht] at h
    split at h
    case isTrue hcond =>
      simp only [Option.some.injEq, Prod.mk.injEq] at h
      obtain ⟨h1, _, _⟩ := h
      subst h1
      simp only [rowSpec, ht]
      simp [hcond]
    case isFalse hcond =>
      split at h
      · exact absurd h (by simp)
      case h_2 c cs hdata =>
        split at h
        case isTrue hcond2 =>
          simp only [Option.some.injEq, Prod.mk.injEq] at h
          obtain ⟨h1, _, _⟩ := h
          subst h1
          simp only [rowSpec, ht]
          simp [hcond, hdata, hcond2]
        case isFalse hcond2 =>
          simp only [Option.some.injEq, Prod.mk.injEq] at h
          obtain ⟨h1, _, _⟩ := h
          subst h1
          simp only [rowSpec, ht]
          simp [hcond, hdata, hcond2]

/-- Master invariant of the `_detect_structure` forward pass: on success,
every output row satisfies `rowSpec` with respect to the nearest block and
phase references of the rows before it, relative to the starting state. -/
theorem detectGo_master : ∀ (rows : List Row) (cb cp : Option String) (out : List Row),
    detectGo cb cp rows = some out →
    ∀ i (h : i < out.length),
      rowSpec (nearestBloc cb (out.take i)) (nearestPhase cp (out.take i)) (out.get ⟨i, h⟩) := by
  intro rows
  induction rows with
  | nil =>
    intro cb cp out h i hi
    simp only [detectGo, Option.some.injEq] at h
    subst h
    simp at hi
  | cons r rs ih =>
    intro cb cp out h i hi
    simp only [detectGo] at h
    cases hc : classify cb cp r with
    | none => rw [hc] at h; exact absurd h (by simp)
    | some trip =>
      obtain ⟨r', cb', cp'⟩ := trip
      rw [hc] at h
      dsimp only at h
      cases hd : detectGo cb' cp' rs with
      | none => rw [hd] at h; exact absurd h (by simp)
      | some out' =>
        rw [hd] at h
        dsimp only at h
        simp only [Option.some.injEq] at h
        subst h
        cases i with
        | zero =>
          exact classify_rowSpec _ _ _ _ _ _ hc
        | succ j =>
          have hj : j < out'.length := by simpa using hi
          have hrec := ih cb' cp' out' hd j hj
          obtain ⟨hcb, hcp⟩ := classify_state _ _ _ _ _ _ hc
          show rowSpec (nearestBloc cb (r' :: out'.take j)) (nearestPhase cp (r' :: out'.take j))
            (out'.get ⟨j, hj⟩)
          rw [nearestBloc_cons, nearestPhase_cons, ← hcb, ← hcp]
          exact hrec

/-- Re-running `classify` on its own output row with the same incoming state
reproduces the row and the state: classification reads only the `task` and
`start` fields, which the step leaves untouched. -/
theorem classify_idem (cb cp : Option String) (r r' : Row) (cb' cp' : Option String)
    (h : classify cb cp r = some (r', cb', cp')) :
    classify cb cp r' = some (r', cb', cp') := by
  cases ht : r.task with
  | none =>
    simp only [classify, ht, Option.some.injEq, Prod.mk.injEq] at h
    obtain ⟨h1, h2, h3⟩ := h
    subst h1; subst h2; subst h3
    simp [classify, ht]
  | some t =>
    simp only [classify, ht] at h
    split at h
    case isTrue hcond =>
      simp only [Option.some.injEq, Prod.mk.injEq] at h
      obtain ⟨h1, h2, h3⟩ := h
      subst h1; subst h2; subst h3
      simp [classify, ht, hcond]
    case isFalse hcond =>
      split at h
      · exact absurd h (by simp)
      case h_2 c cs hdata =>
        split at h <;>
        case _ hcond2 =>
          simp only [Option.some.injEq, Prod.mk.injEq] at h
          obtain ⟨h1, h2, h3⟩ := h
          subst h1; subst h2; subst h3
          simp [classify, ht, hcond, hdata, hcond2]

/-- Re-running the detector loop on its own successful output, from the same
starting state, reproduces that output. -/
theorem detectGo_idem : ∀ (rows : List Row) (cb cp : Option String) (out : List Row),
    detectGo cb cp rows = some out → detectGo cb cp out = some out := by
  intro rows
  induction rows with
  | nil =>
    intro cb cp out h
    simp only [detectGo, Option.some.injEq] at h
    subst h
    rfl
  | cons r rs ih =>
    intro cb cp out h
    simp only [detectGo] at h
    cases hc : classify cb cp r with
    | none => rw [hc] at h; exact absurd h (by simp)
    | some trip =>
      obtain ⟨r', cb', cp'⟩ := trip
      rw [hc] at h
      dsimp only at h
      cases hd : detectGo cb' cp' rs with
      | none => rw [hd] at h; exact absurd h (by simp)
      | some out' =>
        rw [hd] at h
        dsimp only at h
        simp only [Option.some.injEq] at h
        subst h
        simp only [detectGo, classify_idem _ _ _ _ _ _ hc, ih cb' cp' out' hd]

/-- Classification ignores any `level`/`bloc`/`phase` values already present
on the input row: a function that alters only those three fields does not
change the result of a `classify` step. -/
theorem classify_frame (f : Row → Row)
    (hf : ∀ r, f r = { r with level := (f r).level, bloc := (f r).bloc, phase := (f r).phase })
    (cb cp : Option String) (r : Row) :
    classify cb cp (f r) = classify cb cp r := by
  rw [hf r]
  rfl

/-- The detector ignores any `level`/`bloc`/`phase` values already present in
the input rows. -/
theorem detectGo_frame (f : Row → Row)
    (hf : ∀ r, f r = { r with level := (f r).level, bloc := (f r).bloc, phase := (f r).phase }) :
    ∀ (rows : List Row) (cb cp : Option String),
      detectGo cb cp (rows.map f) = detectGo cb cp rows := by
  intro rows
  induction rows with
  | nil => intro cb cp; rfl
  | cons r rs ih =>
    intro cb cp
    simp only [List.map_cons, detectGo, classify_frame f hf cb cp r]
    cases classify cb cp r with
    | none => rfl
    | some trip =>
      obtain ⟨r', cb', cp'⟩ := trip
      simp only [ih cb' cp']

/-- Every row a `classify` step emits carries one of the three levels. -/
theorem classify_level (cb cp : Option String) (r r' : Row) (cb' cp' : Option String)
    (h : classify cb cp r = some (r', cb', cp')) :
    r'.level = "bloc" ∨ r'.level = "phase" ∨ r'.level = "tache" := by
  cases ht : r.task with
  | none =>
    simp only [classify, ht, Option.some.injEq, Prod.mk.injEq] at h
    obtain ⟨h1, _, _⟩ := h
    subst h1
    simp
  | some t =>
    simp only [classify, ht] at h
    split at h
    · simp only [Option.some.injEq, Prod.mk.injEq] at h
      obtain ⟨h1, _, _⟩ := h
      subst h1
      simp
    · split at h
      · exact absurd h (by simp)
      · split at h <;>
        · simp only [Option.some.injEq, Prod.mk.injEq] at h
          obtain ⟨h1, _, _⟩ := h
          subst h1
          simp

/-- On success, every output row of the detector loop carries one of the
three levels. -/
theorem detectGo_levels : ∀ (rows : List Row) (cb cp : Option String) (out : List Row),
    detectGo cb cp rows = some out →
    ∀ r' ∈ out, r'.level = "bloc" ∨ r'.level = "phase" ∨ r'.level = "tache" := by
  intro rows
  induction rows with
  | nil =>
    intro cb cp out h r' hr
    simp only [detectGo, Option.some.injEq] at h
    subst h
    simp at hr
  | cons r rs ih =>
    intro cb cp out h x hx
    simp only [detectGo] at h
    cases hc : classify cb cp r with
    | none => rw [hc] at h; exact absurd h (by simp)
    | some trip =>
      obtain ⟨r', cb', cp'⟩ := trip
      rw [hc] at h
      dsimp only at h
      cases hd : detectGo cb' cp' rs with
      | none => rw [hd] at h; exact absurd h (by simp)
      | some out' =>
        rw [hd] at h
        dsimp only at h
        simp only [Option.some.injEq] at h
        subst h
        rcases List.mem_cons.mp hx with h1 | h2
        · subst h1
          exact classify_level _ _ _ _ _ _ hc
        · exact ih cb' cp' out' hd x h2

/-- Claim C1 (counterexample): the claim quantifies over every row classified
as Task, but a row whose text cell is null is left with `bloc = none` even
when a Block row precedes it, so its `bloc` does not equal the label of the
nearest preceding Block row. -/
theorem c1_counterexample :
    detectStructure [{ task := some "A" }, { task := none }] =
      some [{ task := some "A", level := "bloc", bloc := some "A" },
            { task := none, level := "tache" }] ∧
    (({ task := none, level := "tache" } : Row)).level = "tache" ∧
    nearestBloc none [{ task := some "A", level := "bloc", bloc := some "A" }] = some "A" ∧
    (({ task := none, level := "tache" } : Row)).bloc ≠
      nearestBloc none [{ task := some "A", level := "bloc", bloc := some "A" }] := by
  refine ⟨by decide, rfl, by decide, by decide⟩

/-- Claim C1 (amended): after a successful detection run, every row
classified as Task whose text cell is present has `bloc` equal to the label
of the nearest preceding row classified as Block (null if none precedes) and
`phase` equal to the label of the nearest preceding row classified as Phase
since that block (null if none); a row with a null text cell is classified
Task with null `bloc` and `phase` regardless of preceding headers. -/
theorem c1_task_nearest_attribution (rows out : List Row)
    (h : detectStructure rows = some out) (i : Nat) (hi : i < out.length) :
    ((out.get ⟨i, hi⟩).task = none → (out.get ⟨i, hi⟩).level = "tache" ∧
      (out.get ⟨i, hi⟩).bloc = none ∧ (out.get ⟨i, hi⟩).phase = none) ∧
    ((out.get ⟨i, hi⟩).level = "tache" → (out.get ⟨i, hi⟩).task ≠ none →
      (out.get ⟨i, hi⟩).bloc = nearestBloc none (out.take i) ∧
      (out.get ⟨i, hi⟩).phase = nearestPhase none (out.take i)) := by
  have hm := detectGo_master rows none none out h i hi
  cases ht : (out.get ⟨i, hi⟩).task with
  | none =>
    simp only [rowSpec, ht] at hm
    exact ⟨fun _ => hm, fun _ hne => absurd rfl hne⟩
  | some t =>
    simp only [rowSpec, ht] at hm
    constructor
    · intro h0
      exact absurd h0 (by simp)
    · intro hlvl hne
      split at hm
      · rw [hlvl] at hm
        exact absurd hm.1 (by decide)
      · split at hm
        · exact absurd hm (by simp)
        · split at hm
          · rw [hlvl] at hm
            exact absurd hm.1 (by decide)
          · exact ⟨hm.2.1, hm.2.2⟩

/-- Witness for C1 at the spec's test sequence `[BLOCK "A", PHASE "1", TASK "x"]`. -/
theorem c1_task_nearest_attribution_witness :
    (c1wOut.get ⟨2, by decide⟩).bloc = nearestBloc none (c1wOut.take 2) ∧
    (c1wOut.get ⟨2, by decide⟩).phase = nearestPhase none (c1wOut.take 2) :=
  (c1_task_nearest_attribution c1wRows c1wOut (by decide) 2 (by decide)).2 (by decide) (by decide)

/-- Claim C2: a row whose stripped text is the empty string makes
`_detect_structure` evaluate `task_str[0]` and raise an `IndexError`
(modelled as `none`), instead of the default Task classification the spec
requires; a row with a null text cell is handled without a crash. -/
theorem c2_empty_text_crashes :
    detectStructure [{ task := some "" }] = none ∧
    detectStructure [{ task := some "   " }] = none ∧
    detectStructure [{ task := none }] = some [{ task := none, level := "tache" }] := by
  refine ⟨by decide, by decide, by decide⟩

/-- Claim C3 (counterexample): a Block row's own `bloc` field is set to its
own label (not null), and a Phase row's own `phase` field is set to its own
label (a self reference), contradicting the claim. -/
theorem c3_counterexample :
    detectStructure [{ task := some "A" }, { task := some "1" }] =
      some [{ task := some "A", level := "bloc", bloc := some "A" },
            { task := some "1", level := "phase", bloc := some "A", phase := some "1" }] ∧
    (({ task := some "A", level := "bloc", bloc := some "A" } : Row)).level = "bloc" ∧
    (({ task := some "A", level := "bloc", bloc := some "A" } : Row)).bloc ≠ none ∧
    (({ task := some "1", level := "phase", bloc := some "A", phase := some "1" } : Row)).level
      = "phase" ∧
    (({ task := some "1", level := "phase", bloc := some "A", phase := some "1" } : Row)).phase
      ≠ none := by
  refine ⟨by decide, rfl, by decide, rfl, by decide⟩

/-- Claim C3 (amended): after a successful detection run, every row
classified as Block has its own `bloc` field set to its own stripped label
and `phase` null, and every row classified as Phase has its own `phase`
field set to its own stripped label and `bloc` set to the label of the
nearest preceding Block row (null if none precedes). -/
theorem c3_header_self_labels (rows out : List Row)
    (h : detectStructure rows = some out) (i : Nat) (hi : i < out.length) :
    ((out.get ⟨i, hi⟩).level = "bloc" →
      (out.get ⟨i, hi⟩).bloc = ((out.get ⟨i, hi⟩).task).map pyStrip ∧
      (out.get ⟨i, hi⟩).phase = none) ∧
    ((out.get ⟨i, hi⟩).level = "phase" →
      (out.get ⟨i, hi⟩).phase = ((out.get ⟨i, hi⟩).task).map pyStrip ∧
      (out.get ⟨i, hi⟩).bloc = nearestBloc none (out.take i)) := by
  have hm := detectGo_master rows none none out h i hi
  cases ht : (out.get ⟨i, hi⟩).task with
  | none =>
    simp only [rowSpec, ht] at hm
    constructor
    · intro hlvl; rw [hlvl] at hm; exact absurd hm.1 (by decide)
    · intro hlvl; rw [hlvl] at hm; exact absurd hm.1 (by decide)
  | some t =>
    simp only [rowSpec, ht] at hm
    split at hm
    · refine ⟨fun _ => ⟨?_, hm.2.2⟩, fun hlvl => ?_⟩
      · rw [hm.2.1]; rfl
      · rw [hlvl] at hm; exact absurd hm.1 (by decide)
    · split at hm
      · exact absurd hm (by simp)
      · split at hm
        · refine ⟨fun hlvl => ?_, fun _ => ⟨?_, hm.2.1⟩⟩
          · rw [hlvl] at hm; exact absurd hm.1 (by decide)
          · rw [hm.2.2]; rfl
        · constructor
          · intro hlvl; rw [hlvl] at hm; exact absurd hm.1 (by decide)
          · intro hlvl; rw [hlvl] at hm; exact absurd hm.1 (by decide)

/-- Witness for C3: at the phase row of a concrete run, the phase field is
its own label and the bloc field is the nearest preceding block label. -/
theorem c3_header_self_labels_witness :
    (c3wOut.get ⟨1, by decide⟩).phase = ((c3wOut.get ⟨1, by decide⟩).task).map pyStrip ∧
    (c3wOut.get ⟨1, by decide⟩).bloc = nearestBloc none (c3wOut.take 1) :=
  (c3_header_self_labels c3wRows c3wOut (by decide) 1 (by decide)).2 (by decide)

/-- Claim C8: the Hierarchy Detector is idempotent — re-running
`_detect_structure` on its own successful output (which still carries the
original text and date cells) reproduces the same level, bloc and phase
attribution. -/
theorem c8_detect_idempotent (rows out : List Row)
    (h : detectStructure rows = some out) :
    detectStructure out = some out :=
  detectGo_idem rows none none out h

/-- Witness for C8 on a concrete two-row run. -/
theorem c8_detect_idempotent_witness : detectStructure c8wOut = some c8wOut :=
  c8_detect_idempotent c8wRows c8wOut (by decide)

/-- Claim C10: the detector discards any `level`/`bloc`/`phase` values
present in its input (so they never survive detection), and on success every
output row's `level` is one of exactly `"bloc"`, `"phase"`, `"tache"`. -/
theorem c10_reset_and_levels :
    (∀ (f : Row → Row),
      (∀ r, f r = { r with level := (f r).level, bloc := (f r).bloc, phase := (f r).phase }) →
      ∀ rows : List Row, detectStructure (rows.map f) = detectStructure rows) ∧
    (∀ (rows out : List Row), detectStructure rows = some out →
      ∀ r ∈ out, r.level = "bloc" ∨ r.level = "phase" ∨ r.level = "tache") :=
  ⟨fun f hf rows => detectGo_frame f hf rows none none,
   fun rows out h => detectGo_levels rows none none out h⟩

/-- Witness for C10: scrambling the `level`/`bloc`/`phase` input fields of a
concrete row does not change detection, and the concrete output row's level
is one of the three levels. -/
theorem c10_reset_and_levels_witness :
    detectStructure (c10wRows.map (fun r =>
      { r with level := "x", bloc := some "y", phase := some "z" })) = detectStructure c10wRows ∧
    ((({ task := some "T", level := "bloc", bloc := some "T" } : Row)).level = "bloc" ∨
      (({ task := some "T", level := "bloc", bloc := some "T" } : Row)).level = "phase" ∨
      (({ task := some "T", level := "bloc", bloc := some "T" } : Row)).level = "tache") :=
  ⟨c10_reset_and_levels.1 (fun r =>
      { r with level := "x", bloc := some "y", phase := some "z" }) (fun r => rfl) c10wRows,
   c10_reset_and_levels.2 c10wRows [{ task := some "T", level := "bloc", bloc := some "T" }]
      (by decide) { task := some "T", level := "bloc", bloc := some "T" } (by decide)⟩

/-- Indices produced by `enumFrom n` are at least `n`. -/
theorem enumFrom_ge {α : Type} : ∀ (l : List α) (n : Nat) (p : Nat × α),
    p ∈ enumFrom n l → n ≤ p.1 := by
  intro l
  induction l with
  | nil => intro n p h; simp [enumFrom] at h
  | cons x xs ih =>
    intro n p h
    rcases List.mem_cons.mp h with h1 | h2
    · subst h1; exact le_refl n
    · exact le_trans (Nat.le_succ n) (ih (n + 1) p h2)

/-- Membership in `enumFrom` is lookup at the shifted position. -/
theorem mem_enumFrom {α : Type} : ∀ (l : List α) (n i : Nat) (x : α),
    ((i, x) ∈ enumFrom n l) ↔ (n ≤ i ∧ l.get? (i - n) = some x) := by
  intro l
  induction l with
  | nil => intro n i x; simp [enumFrom]
  | cons y ys ih =>
    intro n i x
    constructor
    · intro h
      rcases List.mem_cons.mp h with h1 | h2
      · have hi : i = n := congrArg Prod.fst h1
        have hx : x = y := congrArg Prod.snd h1
        subst hi; subst hx
        simp
      · have hge := enumFrom_ge ys (n + 1) (i, x) h2
        have hys := (ih (n + 1) i x).mp h2
        refine ⟨le_trans (Nat.le_succ n) hge, ?_⟩
        have hin : i - n = (i - (n + 1)) + 1 := by omega
        rw [hin]
        simpa using hys.2
    · rintro ⟨hle, hget⟩
      by_cases hi : i = n
      · subst hi
        simp only [Nat.sub_self, List.get?] at hget
        exact List.mem_cons.mpr (Or.inl (by rw [Option.some.inj hget]))
      · have h1 : n + 1 ≤ i := by omega
        apply List.mem_cons_of_mem
        apply (ih (n + 1) i x).mpr
        refine ⟨h1, ?_⟩
        have hin : i - n = (i - (n + 1)) + 1 := by omega
        rw [hin] at hget
        simpa using hget

/-- Membership in `withIdx` is lookup at the index. -/
theorem mem_withIdx (df : List VRow) (p : Nat × VRow) :
    p ∈ withIdx df ↔ df.get? p.1 = some p.2 := by
  obtain ⟨i, r⟩ := p
  rw [withIdx, mem_enumFrom]
  simp

/-- Claim C4: for a Task row with start, end and duration all present, the
duration-coherence rule emits its warning for that row exactly when
`abs((end - start) - duration) > 1` (so a difference of exactly 1 produces
no alert), and the warning's message carries both the computed and the
stated duration. -/
theorem c4_duration_coherence (df : List VRow) (i : Nat) (r : VRow) (s e d : Int)
    (hget : df.get? i = some r) (hlvl : r.level = "tache")
    (hs : r.start_date = some s) (he : r.end_date = some e) (hd : r.duration = some d) :
    ((durAlert i r ∈ checkDurationCoherence df) ↔ 1 < (e - s - d).natAbs) ∧
    (durAlert i r).severity = "warning" ∧
    (durAlert i r).message = "Incohérence durée: " ++ fmtName r.task_name ++ " (calculé: " ++
      toString (e - s) ++ "j, indiqué: " ++ toString d ++ "j)" := by
  refine ⟨⟨?_, ?_⟩, rfl, ?_⟩
  · intro hmem
    rcases List.mem_flatMap.mp hmem with ⟨p, hp, hbody⟩
    by_cases hc : 1 < ((p.2.end_date.getD 0 - p.2.start_date.getD 0) - p.2.duration.getD 0).natAbs
    · rw [if_pos hc] at hbody
      have heq := List.mem_singleton.mp hbody
      have hi : i = p.1 := Option.some.inj (congrArg Alert.row heq)
      obtain ⟨hpmem, _⟩ := List.mem_filter.mp hp
      have hget2 : df.get? p.1 = some p.2 := (mem_withIdx df p).mp hpmem
      rw [← hi] at hget2
      rw [hget] at hget2
      have hr : p.2 = r := (Option.some.inj hget2).symm
      rw [hr, hs, he, hd] at hc
      simpa using hc
    · rw [if_neg hc] at hbody
      simp at hbody
  · intro hcond
    apply List.mem_flatMap.mpr
    refine ⟨(i, r), ?_, ?_⟩
    · apply List.mem_filter.mpr
      refine ⟨(mem_withIdx df (i, r)).mpr hget, ?_⟩
      simp [hlvl, hs, he, hd]
    · have hc : 1 < ((r.end_date.getD 0 - r.start_date.getD 0) - r.duration.getD 0).natAbs := by
        rw [hs, he, hd]
        simpa using hcond
      rw [if_pos hc]
      simp
  · simp [durAlert, durMsg, hs, he, hd]

/-- Witness for C4 at the spec's boundary example: start Jan 1, end Jan 6
(computed 5); stated 3 fires, stated 4 (difference exactly 1) does not. -/
theorem c4_duration_coherence_witness :
    durAlert 0 c4wBad ∈ checkDurationCoherence [c4wBad] ∧
    durAlert 0 c4wOk ∉ checkDurationCoherence [c4wOk] :=
  ⟨((c4_duration_coherence [c4wBad] 0 c4wBad 0 5 3 rfl rfl rfl rfl rfl).1).mpr (by decide),
   fun h => absurd (((c4_duration_coherence [c4wOk] 0 c4wOk 0 5 4 rfl rfl rfl rfl rfl).1).mp h)
     (by decide)⟩

/-- Claim C5 (counterexample): the validation engine is not a pure function
of the input snapshot alone — the future-progress rule reads the current
date, so the very same normalized input yields different alert lists when
validated on day 50 and on day 200. -/
theorem c5_counterexample : validate 50 c5df ≠ validate 200 c5df := by decide

/-- Claim C5 (amended): each validation run is a pure function of the input
snapshot and the current date: for a fixed current date, the result is the
eight rules' findings concatenated in the fixed rule order, hence
deterministic for identical input. -/
theorem c5_fixed_rule_order (today : Int) (df : List VRow) :
    validate today df =
      checkMissingDates df ++ checkDurationCoherence df ++ checkProgressRange df ++
      checkDateOrder df ++ checkOrphanTasks df ++ checkOverlappingTasks df ++
      checkMissingValues df ++ checkFutureProgress today df := by
  simp [validate, rules, List.append_assoc]

/-- Claim C6: the overlap rule compares exactly the adjacent pairs of each
phase group sorted ascending by start date (one info alert per adjacent pair
with `previous end > next start`, never a non-adjacent pair), the sort is an
ascending-by-start permutation of the group, and on the two-task example
`[TaskA: 1–10, TaskB: 5–15]` in one phase it emits exactly one info alert
naming both tasks. -/
theorem c6_overlap_adjacent :
    (∀ l : List (Nat × VRow), adjacentOverlaps l =
      ((l.zip l.tail).filter
          (fun q => decide (q.1.2.end_date.getD 0 > q.2.2.start_date.getD 0))).map
        (fun q => ovAlert q.1 q.2)) ∧
    (∀ l : List (Nat × VRow), List.Perm (sortByStart l) l ∧ List.Sorted startLE (sortByStart l)) ∧
    checkOverlappingTasks [c6dfA, c6dfB] =
      [{ severity := "info", message := "Chevauchement: TaskA et TaskB", row := some 0 }] := by
  refine ⟨?_, ?_, by decide⟩
  · intro l
    induction l with
    | nil => rfl
    | cons c tl ih =>
      cases tl with
      | nil => rfl
      | cons n rest =>
        rw [adjacentOverlaps, ih]
        by_cases hc : c.2.end_date.getD 0 > n.2.start_date.getD 0 <;>
          simp [List.zip_cons_cons, List.filter_cons, hc]
  · intro l
    exact ⟨List.perm_insertionSort startLE l, List.sorted_insertionSort startLE l⟩

/-- Updating a key then reading it back gives the written value. -/
theorem dictGet_dictSet_self : ∀ (dd : List (String × Nat)) (k : String) (v : Nat),
    dictGet (dictSet dd k v) k 0 = v := by
  intro dd
  induction dd with
  | nil => intro k v; simp [dictSet, dictGet]
  | cons kv rest ih =>
    intro k v
    obtain ⟨k', v'⟩ := kv
    by_cases h : k' = k
    · simp [dictSet, dictGet, h]
    · simp [dictSet, dictGet, h, ih]

/-- Updating one key leaves every other key's value unchanged. -/
theorem dictGet_dictSet_other : ∀ (dd : List (String × Nat)) (k k' : String) (v : Nat),
    k ≠ k' → dictGet (dictSet dd k v) k' 0 = dictGet dd k' 0 := by
  intro dd
  induction dd with
  | nil => intro k k' v hne; simp [dictSet, dictGet, hne]
  | cons kv rest ih =>
    intro k k' v hne
    obtain ⟨a, b⟩ := kv
    by_cases ha : a = k
    · subst ha
      simp [dictSet, dictGet, hne]
    · by_cases ha' : a = k'
      · simp [dictSet, dictGet, ha, ha', Ne.symm hne]
      · simp [dictSet, dictGet, ha, ha', ih k k' v hne]

/-- Folding the `get_summary` loop adds, at every key, the number of alerts
carrying that key as severity. -/
theorem getSummary_fold : ∀ (alerts : List Alert) (dd : List (String × Nat)) (s : String),
    dictGet (alerts.foldl sumStep dd) s 0 =
      dictGet dd s 0 + (alerts.filter (fun a => a.severity == s)).length := by
  intro alerts
  induction alerts with
  | nil => intro dd s; simp
  | cons a as ih =>
    intro dd s
    rw [List.foldl_cons, ih]
    by_cases hsev : a.severity = s
    · rw [List.filter_cons]
      simp only [hsev, beq_self_eq_true, if_true]
      rw [sumStep, hsev, dictGet_dictSet_self]
      simp only [List.length_cons]
      omega
    · rw [List.filter_cons]
      have : (a.severity == s) = false := beq_eq_false_iff_ne.mpr hsev
      simp only [this, Bool.false_eq_true, if_false]
      rw [sumStep, dictGet_dictSet_other _ _ _ _ hsev]

/-- Claim C7 (counterexample): on an alert whose severity is the string
`total`, `get_summary`'s `total` entry is incremented past the list length,
so the returned total does not equal the number of alerts. -/
theorem c7_counterexample :
    dictGet (getSummary c7baddf) "total" 0 = 2 ∧ c7baddf.length = 1 := by
  exact ⟨by decide, rfl⟩

/-- Claim C7 (amended): for every alert list in which no alert carries the
reserved severity string `total`, `get_summary` returns a `total` equal to
the list length and, for every severity key, the number of alerts with that
severity (so unknown severities are kept and still count toward the total);
on `[error, error, warning, info, info, info]` it returns
`{error: 2, warning: 1, info: 3, total: 6}`. -/
theorem c7_summary_counts (alerts : List Alert)
    (hnt : ∀ a ∈ alerts, a.severity ≠ "total") :
    dictGet (getSummary alerts) "total" 0 = alerts.length ∧
    (∀ s : String, s ≠ "total" →
      dictGet (getSummary alerts) s 0 = (alerts.filter (fun a => a.severity == s)).length) ∧
    getSummary c7example = [("error", 2), ("warning", 1), ("info", 3), ("total", 6)] := by
  refine ⟨?_, ?_, by decide⟩
  · rw [getSummary, getSummary_fold]
    have hfe : alerts.filter (fun a => a.severity == "total") = [] := by
      rw [List.filter_eq_nil_iff]
      intro a ha
      simpa using hnt a ha
    rw [hfe]
    simp [dictGet]
  · intro s hs
    rw [getSummary, getSummary_fold]
    have hinit : dictGet [("error", 0), ("warning", 0), ("info", 0),
        ("total", alerts.length)] s 0 = 0 := by
      simp only [dictGet]
      split_ifs with h1 h2 h3 h4
      · rfl
      · rfl
      · rfl
      · exact absurd h4.symm hs
      · rfl
    rw [hinit]
    omega

/-- Witness for C7 on the spec's example list. -/
theorem c7_summary_counts_witness :
    dictGet (getSummary c7example) "total" 0 = c7example.length ∧
    dictGet (getSummary c7example) "error" 0 =
      (c7example.filter (fun a => a.severity == "error")).length :=
  ⟨(c7_summary_counts c7example (by decide)).1,
   (c7_summary_counts c7example (by decide)).2.1 "error" (by decide)⟩

/-- Claim C9: when the mapped frame has start and end date columns but no
duration column, the parse aborts with an exception (no partial dataset):
`_clean_data`'s back-fill reads the absent `duration` column
unconditionally. -/
theorem c9_missing_duration_aborts (df : PDF)
    (hs : "start" ∈ df.cols) (he : "end" ∈ df.cols) (hd : "duration" ∉ df.cols) :
    isError (parseFromMapped df) = true := by
  rw [parseFromMapped]
  cases hdet : detectStructurePDF df with
  | error e => rfl
  | ok s =>
    rw [detectStructurePDF] at hdet
    cases hgo : detectGo none none (effRows df) with
    | none => rw [hgo] at hdet; exact absurd hdet (by simp)
    | some out =>
      rw [hgo] at hdet
      dsimp only at hdet
      simp only [Except.ok.injEq] at hdet
      subst hdet
      simp only [cleanDataPDF]
      have hs' : "start" ∈ df.cols ++
          (["level", "bloc", "phase"].filter (fun c => !df.cols.contains c)) :=
        List.mem_append_left _ hs
      have he' : "end" ∈ df.cols ++
          (["level", "bloc", "phase"].filter (fun c => !df.cols.contains c)) :=
        List.mem_append_left _ he
      have hd' : "duration" ∉ df.cols ++
          (["level", "bloc", "phase"].filter (fun c => !df.cols.contains c)) := by
        intro hmem
        rcases List.mem_append.mp hmem with h1 | h2
        · exact hd h1
        · have := (List.mem_filter.mp h2).1
          simp at this
      rw [if_pos ⟨hs', he'⟩, if_neg hd']
      rfl

/-- Witness for C9 on a concrete three-column frame with no duration
column. -/
theorem c9_missing_duration_aborts_witness : isError (parseFromMapped c9wdf) = true :=
  c9_missing_duration_aborts c9wdf (by decide) (by decide) (by decide)
